import Mathlib

/-!
Shallow embedding of hb-subset-cff-common.cc (CFF FDSelect subsetting:
hb_plan_subset_cff_fdselect and hb_serialize_cff_fdselect) together with
the collaborator structures the file uses (hb_set_t, Remap, and the CFF
FDSelect record layouts), and theorems checking the specification's
claims about them.

Machine integers (hb_codepoint_t, unsigned int) are modelled as Nat.
All quantities involved are 32-bit in the source; the single subtraction
that can underflow there (size -= FDSelect::min_size with size == 0) is
modelled with explicit unsigned-wrap semantics, and the remaining size
arithmetic cannot wrap for any input a font can produce (glyph counts
and range counts are bounded by the number of glyphs of a font).
-/

/-- CFF_UNDEF_CODE from hb-ot-cff-common.hh: the sentinel "undefined"
hb_codepoint_t value used to initialise prev_fd in the planner's scan. -/
def CFF_UNDEF_CODE : Nat := 4294967295

/-- Modelled from the spec: record-shape constants of the FDSelect binary
layouts (hb-ot-cff-common.hh / hb-ot-cff2-table.hh are not under src/).
The spec fixes the field widths: a one-byte format tag; format 0 stores one
compact-index byte per glyph; format 3 uses a double-byte glyph index and a
single-byte dictionary index with a double-byte range count and sentinel;
format 4 uses a quadruple-byte glyph index and a double-byte dictionary
index with a quadruple-byte range count and sentinel.  min_size constants
denote the header bytes (format tag, range count, sentinel) so that the
planned size equals the bytes the serializer lays down, as the spec
requires ("matching the planner's size computation exactly"). -/
def HBUINT8_static_size : Nat := 1

/-- Size of the shared FDSelect header: the one-byte format tag. -/
def FDSelect_min_size : Nat := 1

/-- Header bytes of a format-0 FDSelect: the format tag alone. -/
def FDSelect0_min_size : Nat := 1

/-- Header bytes of a format-3 FDSelect: format tag (1), nRanges (2),
sentinel (2). -/
def FDSelect3_min_size : Nat := 5

/-- Bytes of one format-3 range record: first glyph (2) plus fd (1). -/
def FDSelect3_Range_static_size : Nat := 3

/-- Header bytes of a format-4 FDSelect: format tag (1), nRanges (4),
sentinel (4). -/
def FDSelect4_min_size : Nat := 9

/-- Bytes of one format-4 range record: first glyph (4) plus fd (2). -/
def FDSelect4_Range_static_size : Nat := 6

/-- Modelled from the spec: the Remap collaborator of
hb-subset-cff-common.hh (not under src/).  Per the spec it is "a small
dense array indexed by original dictionary index (size = original
dictionary count), holding either unused or the new compacted index",
plus the running count of assigned indices. -/
structure Remap where
  arr : List (Option Nat)
  cnt : Nat
  deriving DecidableEq

/-- Remap.reset (fdCount): fresh dense array of the given size, all
entries unused, count zero. -/
def Remap.reset (n : Nat) : Remap :=
  { arr := List.replicate n none, cnt := 0 }

/-- Remap.add (fd): assign the next compacted index to original index fd. -/
def Remap.add (r : Remap) (fd : Nat) : Remap :=
  { arr := r.arr.set fd (some r.cnt), cnt := r.cnt + 1 }

/-- Lookup of the compacted index assigned to an original index, if any. -/
def Remap.get (r : Remap) (fd : Nat) : Option Nat :=
  r.arr.getD fd none

/-- Remap.operator[]: the stored compacted index, CFF_UNDEF_CODE when the
original index was never added (the "unused" marker value). -/
def Remap.idx (r : Remap) (fd : Nat) : Nat :=
  (r.get fd).getD CFF_UNDEF_CODE

/-- Remap.get_count: how many original indices have been assigned. -/
def Remap.get_count (r : Remap) : Nat := r.cnt

/-- Modelled from the spec: hb_set_t as an ordered distinct-element
collection ("unordered membership, ascending enumeration on demand").
hbSetAdd is hb_set_t::add: sorted insertion without duplication, so that
iterating the resulting list front to back is the set's ascending
enumeration and its length is the population. -/
def hbSetAdd (x : Nat) : List Nat → List Nat
  | [] => [x]
  | y :: ys => if x < y then x :: y :: ys else if x = y then y :: ys else y :: hbSetAdd x ys

/-- State threaded through the planner's single scan over the retained
glyphs: the hb_set of font dict indices seen so far, prev_fd, the
num_ranges counter and the subst_first_glyphs output vector. -/
structure PassState where
  set : List Nat
  prev_fd : Nat
  num_ranges : Nat
  first_glyphs : List Nat
  deriving DecidableEq

/-- One iteration of the planner's scan (body of the for loop at
hb-subset-cff-common.cc:66-77): add fd to the set; if fd differs from
prev_fd, count a new range, update prev_fd and push the new glyph index. -/
def passStep (fdOf : Nat → Nat) (i g : Nat) (st : PassState) : PassState :=
  if fdOf g ≠ st.prev_fd then
    { set := hbSetAdd (fdOf g) st.set, prev_fd := fdOf g,
      num_ranges := st.num_ranges + 1, first_glyphs := st.first_glyphs ++ [i] }
  else
    { set := hbSetAdd (fdOf g) st.set, prev_fd := st.prev_fd,
      num_ranges := st.num_ranges, first_glyphs := st.first_glyphs }

/-- The planner's scan: fold passStep over the retained glyphs, i being
the running new glyph index. -/
def runPass (fdOf : Nat → Nat) : List Nat → Nat → PassState → PassState
  | [], _, st => st
  | g :: gs, i, st => runPass fdOf gs (i + 1) (passStep fdOf i g st)

/-- Specification view of the scan's pushed positions: the list of new
glyph indices at which the fd differs from the previous one (prev being
the value of prev_fd when the scan reaches this suffix). -/
def rangeStarts (fdOf : Nat → Nat) : List Nat → Nat → Nat → List Nat
  | [], _, _ => []
  | g :: gs, i, prev =>
    if fdOf g ≠ prev then i :: rangeStarts fdOf gs (i + 1) (fdOf g)
    else rangeStarts fdOf gs (i + 1) prev

/-- The hb_set contents after the scan: every fd of a retained glyph,
kept sorted and deduplicated. -/
def usedFds (fdOf : Nat → Nat) (glyphs : List Nat) : List Nat :=
  glyphs.foldl (fun s g => hbSetAdd (fdOf g) s) []

/-- The fdmap-building loop at hb-subset-cff-common.cc:94-96: iterate the
set in ascending order and Remap.add each element into a Remap that was
reset to fdCount entries. -/
def buildFdmap (fdCount : Nat) (us : List Nat) : Remap :=
  us.foldl Remap.add (Remap.reset fdCount)

/-- The planner's five OUT parameters on success. -/
structure Plan where
  subset_fd_count : Nat
  subst_fdselect_size : Nat
  subst_fdselect_format : Nat
  subst_first_glyphs : List Nat
  fdmap : Remap
  deriving DecidableEq

/-- hb_plan_subset_cff_fdselect (hb-subset-cff-common.cc:41-127).
setAllocOk models whether hb_set_create succeeds, remapAllocOk whether
fdmap.reset succeeds; none models returning false.  fdOf is
src.get_fd, first0 and fdmap0 the caller-supplied contents of the OUT
parameters subst_first_glyphs and fdmap (the function pushes onto the
former and only overwrites the latter when it builds a remap). -/
def hb_plan_subset_cff_fdselect (setAllocOk remapAllocOk : Bool)
    (glyphs : List Nat) (fdCount : Nat) (fdOf : Nat → Nat)
    (first0 : List Nat) (fdmap0 : Remap) : Option Plan :=
  if glyphs.length = 0 then some ⟨0, 0, 0, first0, fdmap0⟩
  else if setAllocOk = false then none
  else
  let st := runPass fdOf glyphs 0 ⟨[], CFF_UNDEF_CODE, 0, first0⟩
  let subset_fd_count := st.set.length
  if subset_fd_count = fdCount then
    some ⟨subset_fd_count, 0, 0, st.first_glyphs, fdmap0⟩
  else if remapAllocOk = false then none
  else
  let fdmap := buildFdmap fdCount st.set
  if 255 < subset_fd_count then
    some ⟨subset_fd_count,
      FDSelect4_min_size + FDSelect4_Range_static_size * st.num_ranges, 4,
      st.first_glyphs, fdmap⟩
  else
  let format0_size := FDSelect0_min_size + HBUINT8_static_size * glyphs.length
  let format3_size := FDSelect3_min_size + FDSelect3_Range_static_size * st.num_ranges
  if format0_size ≤ format3_size then
    some ⟨subset_fd_count, format0_size, 0, [], fdmap⟩
  else
    some ⟨subset_fd_count, format3_size, 3, st.first_glyphs, fdmap⟩

/-- Big-endian bytes of a value in a w-byte field, truncating to the
field width exactly as HBUINT8/16/32 set() does. -/
def beBytes : Nat → Nat → List Nat
  | 0, _ => []
  | w + 1, v => beBytes w (v / 256) ++ [v % 256]

/-- The per-range field writes of serialize_fdselect_3_4
(hb-subset-cff-common.cc:142-147): for each entry of first_glyphs, the
first field holds the entry itself and the fd field holds
fdmap[src.get_fd (glyph)] where glyph is that same entry (the source
applies get_fd to the new glyph index it reads out of first_glyphs). -/
def rangeBytes (gidW fdW : Nat) (fdOf : Nat → Nat) (fdmap : Remap) : List Nat → List Nat
  | [] => []
  | glyph :: rest =>
    beBytes gidW glyph ++ beBytes fdW (Remap.idx fdmap (fdOf glyph))
      ++ rangeBytes gidW fdW fdOf fdmap rest

/-- The unsigned 32-bit decrement size -= FDSelect::min_size performed at
hb-subset-cff-common.cc:170: wraps to 0xFFFFFFFF when size is 0. -/
def u32sub1 (n : Nat) : Nat := if n = 0 then 4294967295 else n - 1

/-- serialize_fdselect_3_4 (hb-subset-cff-common.cc:129-150), for field
widths gidW (nRanges, first, sentinel) and fdW (fd).  cap models the
bytes the allocator can still hand out; allocation of size bytes fails
when cap < size, modelling c->allocate_size returning nullptr.  On
success the result is the bytes of the fields the function sets:
nRanges = first_glyphs.len, the range records, and the sentinel holding
num_glyphs. -/
def serialize_fdselect_3_4 (gidW fdW cap num_glyphs : Nat) (fdOf : Nat → Nat)
    (size : Nat) (first_glyphs : List Nat) (fdmap : Remap) : Option (List Nat) :=
  if cap < size then none
  else some (beBytes gidW first_glyphs.length
    ++ rangeBytes gidW fdW fdOf fdmap first_glyphs
    ++ beBytes gidW num_glyphs)

/-- hb_serialize_cff_fdselect (hb-subset-cff-common.cc:156-204).
allocate_min<FDSelect> takes FDSelect_min_size bytes (fails when cap is
smaller), the format byte is written, size is decremented with unsigned
wrap, and the switch dispatches: format 0 allocates the decremented size
and writes one byte fdmap[src.get_fd (glyphs[i])] per retained glyph;
formats 3 and 4 delegate to serialize_fdselect_3_4; any other format
value falls through the (release-mode) assert and returns successfully
having written only the format byte. -/
def hb_serialize_cff_fdselect (cap : Nat) (glyphs : List Nat) (fdOf : Nat → Nat)
    (fd_count fdselect_format size : Nat) (first_glyphs : List Nat)
    (fdmap : Remap) : Option (List Nat) :=
  if cap < FDSelect_min_size then none
  else if fdselect_format = 0 then
    (if cap - FDSelect_min_size < u32sub1 size then none
     else some ([fdselect_format % 256]
       ++ glyphs.map (fun g => Remap.idx fdmap (fdOf g) % 256)))
  else if fdselect_format = 3 then
    match serialize_fdselect_3_4 2 1 (cap - FDSelect_min_size) glyphs.length
        fdOf (u32sub1 size) first_glyphs fdmap with
    | none => none
    | some body => some ([fdselect_format % 256] ++ body)
  else if fdselect_format = 4 then
    match serialize_fdselect_3_4 4 2 (cap - FDSelect_min_size) glyphs.length
        fdOf (u32sub1 size) first_glyphs fdmap with
    | none => none
    | some body => some ([fdselect_format % 256] ++ body)
  else some [fdselect_format % 256]

/-- Big-endian read of a w-byte field at offset off of a byte list
(missing bytes read as 0). -/
def rdBE (bytes : List Nat) (off w : Nat) : Nat :=
  (List.range w).foldl (fun acc k => acc * 256 + bytes.getD (off + k) 0) 0

/-- Modelled from the spec: the decoder side of the round-trip property.
Scanning the range records backwards, the fd of the last range whose
first glyph index is at most gid. -/
def lastRangeFd (bytes : List Nat) (gidW fdW base gid : Nat) : Nat → Option Nat
  | 0 => none
  | n + 1 =>
    if rdBE bytes (base + (gidW + fdW) * n) gidW ≤ gid then
      some (rdBE bytes (base + (gidW + fdW) * n + gidW) fdW)
    else lastRangeFd bytes gidW fdW base gid n

/-- Modelled from the spec: decoding a serialized FDSelect with the same
field-width rules used for encoding.  Format 0: the byte at the glyph's
position.  Formats 3 and 4: the record of the range containing the
glyph, the sentinel bounding the last range. -/
def decode_fdselect (num_glyphs : Nat) (bytes : List Nat) (gid : Nat) : Option Nat :=
  if bytes.getD 0 0 = 0 then
    (if gid < num_glyphs then some (bytes.getD (1 + gid) 0) else none)
  else if bytes.getD 0 0 = 3 then
    (if gid < rdBE bytes (3 + 3 * rdBE bytes 1 2) 2 then
      lastRangeFd bytes 2 1 3 gid (rdBE bytes 1 2)
     else none)
  else if bytes.getD 0 0 = 4 then
    (if gid < rdBE bytes (5 + 6 * rdBE bytes 1 4) 4 then
      lastRangeFd bytes 4 2 5 gid (rdBE bytes 1 4)
     else none)
  else none

/-! Basic lemmas about the byte encodings and list operations. -/

theorem beBytes_length : ∀ (w v : Nat), (beBytes w v).length = w := by
  intro w
  induction w with
  | zero => intro v; rfl
  | succ n ih =>
    intro v
    simp [beBytes, ih]

theorem rangeBytes_length (gidW fdW : Nat) (fdOf : Nat → Nat) (fdmap : Remap) :
    ∀ l : List Nat, (rangeBytes gidW fdW fdOf fdmap l).length = (gidW + fdW) * l.length := by
  intro l
  induction l with
  | nil => rfl
  | cons glyph rest ih =>
    simp [rangeBytes, beBytes_length, ih]
    ring

theorem u32sub1_of_ne_zero (n : Nat) (h : n ≠ 0) : u32sub1 n = n - 1 := by
  simp [u32sub1, h]

theorem replicate_getD_none : ∀ (n j : Nat),
    (List.replicate n (none : Option Nat)).getD j none = none := by
  intro n
  induction n with
  | zero => intro j; rfl
  | succ m ih =>
    intro j
    cases j with
    | zero => rfl
    | succ k => simpa [List.replicate] using ih k

theorem list_set_getD_self : ∀ (l : List (Option Nat)) (i : Nat) (v : Option Nat),
    i < l.length → (l.set i v).getD i none = v := by
  intro l
  induction l with
  | nil => intro i v h; simp at h
  | cons x xs ih =>
    intro i v h
    cases i with
    | zero => rfl
    | succ m =>
      have hm : m < xs.length := by simpa using h
      simpa [List.set] using ih m v hm

theorem list_set_getD_ne : ∀ (l : List (Option Nat)) (i j : Nat) (v : Option Nat),
    i ≠ j → (l.set i v).getD j none = l.getD j none := by
  intro l
  induction l with
  | nil => intro i j v _; rfl
  | cons x xs ih =>
    intro i j v hij
    cases i with
    | zero =>
      cases j with
      | zero => exact absurd rfl hij
      | succ k => rfl
    | succ m =>
      cases j with
      | zero => rfl
      | succ k =>
        have : m ≠ k := by omega
        simpa [List.set] using ih m k v this

/-! Lemmas about the sorted-insert model of hb_set_t. -/

theorem hbSetAdd_mem : ∀ (l : List Nat) (a x : Nat),
    (x ∈ hbSetAdd a l ↔ x = a ∨ x ∈ l) := by
  intro l
  induction l with
  | nil => intro a x; simp [hbSetAdd]
  | cons y ys ih =>
    intro a x
    by_cases h1 : a < y
    · simp [hbSetAdd, h1]
    · by_cases h2 : a = y
      · subst h2
        simp [hbSetAdd, h1]
      · simp only [hbSetAdd, if_neg h1, if_neg h2, List.mem_cons, ih]
        tauto

theorem hbSetAdd_pairwise : ∀ (l : List Nat) (a : Nat),
    l.Pairwise (· < ·) → (hbSetAdd a l).Pairwise (· < ·) := by
  intro l
  induction l with
  | nil => intro a _; simp [hbSetAdd]
  | cons y ys ih =>
    intro a h
    rw [List.pairwise_cons] at h
    by_cases h1 : a < y
    · simp only [hbSetAdd, if_pos h1]
      rw [List.pairwise_cons]
      constructor
      · intro b hb
        rcases List.mem_cons.mp hb with hb | hb
        · omega
        · have := h.1 b hb
          omega
      · rw [List.pairwise_cons]
        exact h
    · by_cases h2 : a = y
      · subst h2
        have heq : hbSetAdd a (a :: ys) = a :: ys := by
          simp [hbSetAdd, h1]
        rw [heq, List.pairwise_cons]
        exact h
      · simp only [hbSetAdd, if_neg h1, if_neg h2]
        rw [List.pairwise_cons]
        constructor
        · intro b hb
          rcases (hbSetAdd_mem ys a b).mp hb with hb | hb
          · omega
          · exact h.1 b hb
        · exact ih a h.2

theorem foldl_hbSetAdd_mem (fdOf : Nat → Nat) : ∀ (gs s0 : List Nat) (x : Nat),
    (x ∈ gs.foldl (fun s g => hbSetAdd (fdOf g) s) s0 ↔
      x ∈ s0 ∨ ∃ g, g ∈ gs ∧ fdOf g = x) := by
  intro gs
  induction gs with
  | nil => intro s0 x; simp
  | cons g gs ih =>
    intro s0 x
    simp only [List.foldl_cons, ih, hbSetAdd_mem, List.mem_cons]
    constructor
    · rintro ((h | h) | ⟨g2, hg2, hfd⟩)
      · exact Or.inr ⟨g, Or.inl rfl, h.symm⟩
      · exact Or.inl h
      · exact Or.inr ⟨g2, Or.inr hg2, hfd⟩
    · rintro (h | ⟨g2, (hg2 | hg2), hfd⟩)
      · exact Or.inl (Or.inr h)
      · subst hg2; exact Or.inl (Or.inl hfd.symm)
      · exact Or.inr ⟨g2, hg2, hfd⟩

theorem foldl_hbSetAdd_pairwise (fdOf : Nat → Nat) : ∀ (gs s0 : List Nat),
    s0.Pairwise (· < ·) →
    (gs.foldl (fun s g => hbSetAdd (fdOf g) s) s0).Pairwise (· < ·) := by
  intro gs
  induction gs with
  | nil => intro s0 h; exact h
  | cons g gs ih =>
    intro s0 h
    exact ih _ (hbSetAdd_pairwise s0 (fdOf g) h)

theorem usedFds_mem (fdOf : Nat → Nat) (glyphs : List Nat) (x : Nat) :
    x ∈ usedFds fdOf glyphs ↔ ∃ g, g ∈ glyphs ∧ fdOf g = x := by
  simpa using foldl_hbSetAdd_mem fdOf glyphs [] x

theorem usedFds_pairwise (fdOf : Nat → Nat) (glyphs : List Nat) :
    (usedFds fdOf glyphs).Pairwise (· < ·) :=
  foldl_hbSetAdd_pairwise fdOf glyphs [] (List.Pairwise.nil)

theorem usedFds_nodup (fdOf : Nat → Nat) (glyphs : List Nat) :
    (usedFds fdOf glyphs).Nodup :=
  (usedFds_pairwise fdOf glyphs).imp Nat.ne_of_lt

theorem usedFds_length_eq_card (fdOf : Nat → Nat) (glyphs : List Nat) :
    (usedFds fdOf glyphs).length = (glyphs.map fdOf).toFinset.card := by
  have h1 : (usedFds fdOf glyphs).toFinset.card = (usedFds fdOf glyphs).length :=
    List.toFinset_card_of_nodup (usedFds_nodup fdOf glyphs)
  have h2 : (usedFds fdOf glyphs).toFinset = (glyphs.map fdOf).toFinset := by
    apply Finset.ext
    intro a
    simp [usedFds_mem, List.mem_map]
  rw [← h1, h2]

theorem usedFds_length_le (fdOf : Nat → Nat) (glyphs : List Nat) (fdCount : Nat)
    (hfd : ∀ g, g ∈ glyphs → fdOf g < fdCount) :
    (usedFds fdOf glyphs).length ≤ fdCount := by
  have hsub : (usedFds fdOf glyphs).toFinset ⊆ Finset.range fdCount := by
    intro a ha
    rw [List.mem_toFinset, usedFds_mem] at ha
    rcases ha with ⟨g, hg, hfdg⟩
    rw [Finset.mem_range]
    rw [← hfdg]
    exact hfd g hg
  have := Finset.card_le_card hsub
  rw [Finset.card_range] at this
  rw [← List.toFinset_card_of_nodup (usedFds_nodup fdOf glyphs)]
  exact this

/-! Lemmas relating the planner's scan to its specification views. -/

theorem passStep_set (fdOf : Nat → Nat) (i g : Nat) (st : PassState) :
    (passStep fdOf i g st).set = hbSetAdd (fdOf g) st.set := by
  unfold passStep
  split <;> rfl

theorem runPass_set (fdOf : Nat → Nat) : ∀ (gs : List Nat) (i : Nat) (st : PassState),
    (runPass fdOf gs i st).set = gs.foldl (fun s g => hbSetAdd (fdOf g) s) st.set := by
  intro gs
  induction gs with
  | nil => intro i st; rfl
  | cons g gs ih =>
    intro i st
    rw [runPass, ih, List.foldl_cons, passStep_set]

theorem runPass_first_glyphs (fdOf : Nat → Nat) : ∀ (gs : List Nat) (i : Nat) (st : PassState),
    (runPass fdOf gs i st).first_glyphs = st.first_glyphs ++ rangeStarts fdOf gs i st.prev_fd := by
  intro gs
  induction gs with
  | nil => intro i st; simp [runPass, rangeStarts]
  | cons g gs ih =>
    intro i st
    rw [runPass, ih]
    by_cases h : fdOf g ≠ st.prev_fd
    · rw [rangeStarts, if_pos h]
      simp [passStep, h]
    · rw [rangeStarts, if_neg h]
      push_neg at h
      simp [passStep, h]

theorem runPass_num_ranges (fdOf : Nat → Nat) : ∀ (gs : List Nat) (i : Nat) (st : PassState),
    (runPass fdOf gs i st).num_ranges = st.num_ranges + (rangeStarts fdOf gs i st.prev_fd).length := by
  intro gs
  induction gs with
  | nil => intro i st; simp [runPass, rangeStarts]
  | cons g gs ih =>
    intro i st
    rw [runPass, ih]
    by_cases h : fdOf g ≠ st.prev_fd
    · rw [rangeStarts, if_pos h]
      simp [passStep, h]
      omega
    · rw [rangeStarts, if_neg h]
      push_neg at h
      simp [passStep, h]

theorem runPass_init_set (fdOf : Nat → Nat) (glyphs first0 : List Nat) :
    (runPass fdOf glyphs 0 ⟨[], CFF_UNDEF_CODE, 0, first0⟩).set = usedFds fdOf glyphs :=
  runPass_set fdOf glyphs 0 _

theorem runPass_init_first (fdOf : Nat → Nat) (glyphs first0 : List Nat) :
    (runPass fdOf glyphs 0 ⟨[], CFF_UNDEF_CODE, 0, first0⟩).first_glyphs
      = first0 ++ rangeStarts fdOf glyphs 0 CFF_UNDEF_CODE :=
  runPass_first_glyphs fdOf glyphs 0 _

theorem runPass_init_num (fdOf : Nat → Nat) (glyphs first0 : List Nat) :
    (runPass fdOf glyphs 0 ⟨[], CFF_UNDEF_CODE, 0, first0⟩).num_ranges
      = (rangeStarts fdOf glyphs 0 CFF_UNDEF_CODE).length := by
  have := runPass_num_ranges fdOf glyphs 0 ⟨[], CFF_UNDEF_CODE, 0, first0⟩
  simpa using this

theorem rangeStarts_lb (fdOf : Nat → Nat) : ∀ (gs : List Nat) (i prev j : Nat),
    j ∈ rangeStarts fdOf gs i prev → i ≤ j := by
  intro gs
  induction gs with
  | nil => intro i prev j h; simp [rangeStarts] at h
  | cons g gs ih =>
    intro i prev j h
    rw [rangeStarts] at h
    by_cases hc : fdOf g ≠ prev
    · rw [if_pos hc] at h
      rcases List.mem_cons.mp h with h | h
      · omega
      · have := ih (i + 1) (fdOf g) j h
        omega
    · rw [if_neg hc] at h
      have := ih (i + 1) prev j h
      omega

theorem rangeStarts_nodup (fdOf : Nat → Nat) : ∀ (gs : List Nat) (i prev : Nat),
    (rangeStarts fdOf gs i prev).Nodup := by
  intro gs
  induction gs with
  | nil => intro i prev; simp [rangeStarts]
  | cons g gs ih =>
    intro i prev
    rw [rangeStarts]
    by_cases hc : fdOf g ≠ prev
    · rw [if_pos hc]
      refine List.Nodup.cons ?_ (ih (i + 1) (fdOf g))
      intro hmem
      have := rangeStarts_lb fdOf gs (i + 1) (fdOf g) i hmem
      omega
    · rw [if_neg hc]
      exact ih (i + 1) prev

theorem rangeStarts_length_le (fdOf : Nat → Nat) : ∀ (gs : List Nat) (i prev : Nat),
    (rangeStarts fdOf gs i prev).length ≤ gs.length := by
  intro gs
  induction gs with
  | nil => intro i prev; simp [rangeStarts]
  | cons g gs ih =>
    intro i prev
    rw [rangeStarts]
    by_cases hc : fdOf g ≠ prev
    · rw [if_pos hc]
      have := ih (i + 1) (fdOf g)
      simpa using this
    · rw [if_neg hc]
      have := ih (i + 1) prev
      simp
      omega

theorem rangeStarts_mem (fdOf : Nat → Nat) : ∀ (gs : List Nat) (prev i j : Nat),
    (j ∈ rangeStarts fdOf gs i prev ↔
      ∃ k, k < gs.length ∧ j = i + k ∧
        fdOf (gs.getD k 0) ≠ (if k = 0 then prev else fdOf (gs.getD (k - 1) 0))) := by
  intro gs
  induction gs with
  | nil =>
    intro prev i j
    simp [rangeStarts]
  | cons g gs ih =>
    intro prev i j
    rw [rangeStarts]
    constructor
    · intro h
      by_cases hc : fdOf g ≠ prev
      · rw [if_pos hc] at h
        rcases List.mem_cons.mp h with h | h
        · exact ⟨0, by simp, by omega, by simpa using hc⟩
        · rcases (ih (fdOf g) (i + 1) j).mp h with ⟨k, hk, hj, hcond⟩
          refine ⟨k + 1, by simpa using hk, by omega, ?_⟩
          cases k with
          | zero => simpa using hcond
          | succ m => simpa using hcond
      · rw [if_neg hc] at h
        push_neg at hc
        rcases (ih prev (i + 1) j).mp h with ⟨k, hk, hj, hcond⟩
        refine ⟨k + 1, by simpa using hk, by omega, ?_⟩
        cases k with
        | zero =>
          have hcond2 : fdOf (gs.getD 0 0) ≠ prev := by simpa using hcond
          have hcond3 : fdOf (gs.getD 0 0) ≠ fdOf g := by rw [hc]; exact hcond2
          simpa using hcond3
        | succ m => simpa using hcond
    · rintro ⟨k, hk, hj, hcond⟩
      cases k with
      | zero =>
        have hcond2 : fdOf g ≠ prev := by simpa using hcond
        rw [if_pos hcond2]
        have : j = i := by omega
        rw [this]
        exact List.mem_cons_self i _
      | succ m =>
        have hm : m < gs.length := by simpa using hk
        have hjm : j = (i + 1) + m := by omega
        by_cases hc : fdOf g ≠ prev
        · rw [if_pos hc]
          refine List.mem_cons.mpr (Or.inr ?_)
          refine (ih (fdOf g) (i + 1) j).mpr ⟨m, hm, hjm, ?_⟩
          cases m with
          | zero => simpa using hcond
          | succ p => simpa using hcond
        · rw [if_neg hc]
          push_neg at hc
          refine (ih prev (i + 1) j).mpr ⟨m, hm, hjm, ?_⟩
          cases m with
          | zero =>
            have hcond2 : fdOf (gs.getD 0 0) ≠ fdOf g := by simpa using hcond
            have hcond3 : fdOf (gs.getD 0 0) ≠ prev := by rw [← hc]; exact hcond2
            simpa using hcond3
          | succ p => simpa using hcond

/-! Lemmas about the remap built from the ascending set enumeration. -/

theorem foldl_Remap_add_arr_length : ∀ (us : List Nat) (r : Remap),
    (us.foldl Remap.add r).arr.length = r.arr.length := by
  intro us
  induction us with
  | nil => intro r; rfl
  | cons u us ih =>
    intro r
    rw [List.foldl_cons, ih]
    simp [Remap.add]

theorem foldl_Remap_add_cnt : ∀ (us : List Nat) (r : Remap),
    (us.foldl Remap.add r).cnt = r.cnt + us.length := by
  intro us
  induction us with
  | nil => intro r; simp
  | cons u us ih =>
    intro r
    rw [List.foldl_cons, ih]
    simp [Remap.add]
    omega

theorem foldl_Remap_add_get_not_mem : ∀ (us : List Nat) (r : Remap) (d : Nat),
    d ∉ us → (us.foldl Remap.add r).get d = r.get d := by
  intro us
  induction us with
  | nil => intro r d _; rfl
  | cons u us ih =>
    intro r d hd
    have hdu : u ≠ d := fun h => hd (List.mem_cons.mpr (Or.inl h.symm))
    have hdus : d ∉ us := fun h => hd (List.mem_cons.mpr (Or.inr h))
    rw [List.foldl_cons, ih (r.add u) d hdus]
    unfold Remap.get Remap.add
    exact list_set_getD_ne r.arr u d (some r.cnt) hdu

theorem foldl_Remap_add_get_mem : ∀ (us : List Nat) (r : Remap) (j d : Nat),
    us.Nodup → (∀ u, u ∈ us → u < r.arr.length) → us.get? j = some d →
    (us.foldl Remap.add r).get d = some (r.cnt + j) := by
  intro us
  induction us with
  | nil => intro r j d _ _ h; simp at h
  | cons u us ih =>
    intro r j d hnd hlt hj
    rw [List.nodup_cons] at hnd
    cases j with
    | zero =>
      have hdu : d = u := by
        simp at hj
        omega
      rw [hdu]
      rw [List.foldl_cons, foldl_Remap_add_get_not_mem us (r.add u) u hnd.1]
      unfold Remap.get Remap.add
      rw [list_set_getD_self r.arr u (some r.cnt) (hlt u (List.mem_cons_self u us))]
      simp
    | succ m =>
      have hjm : us.get? m = some d := by simpa using hj
      have hlt2 : ∀ v, v ∈ us → v < (r.add u).arr.length := by
        intro v hv
        have : (r.add u).arr.length = r.arr.length := by simp [Remap.add]
        rw [this]
        exact hlt v (List.mem_cons.mpr (Or.inr hv))
      rw [List.foldl_cons, ih (r.add u) m d hnd.2 hlt2 hjm]
      have : (r.add u).cnt = r.cnt + 1 := rfl
      rw [this]
      congr 1
      omega

theorem Remap_reset_get (n d : Nat) : (Remap.reset n).get d = none := by
  unfold Remap.get Remap.reset
  exact replicate_getD_none n d

theorem buildFdmap_get_of_get? (fdCount : Nat) (us : List Nat) (j d : Nat)
    (hnd : us.Nodup) (hlt : ∀ u, u ∈ us → u < fdCount) (hj : us.get? j = some d) :
    (buildFdmap fdCount us).get d = some j := by
  unfold buildFdmap
  have hlt2 : ∀ u, u ∈ us → u < (Remap.reset fdCount).arr.length := by
    intro u hu
    simpa [Remap.reset] using hlt u hu
  have := foldl_Remap_add_get_mem us (Remap.reset fdCount) j d hnd hlt2 hj
  simpa [Remap.reset] using this

theorem buildFdmap_get_of_not_mem (fdCount : Nat) (us : List Nat) (d : Nat)
    (hd : d ∉ us) : (buildFdmap fdCount us).get d = none := by
  unfold buildFdmap
  rw [foldl_Remap_add_get_not_mem us (Remap.reset fdCount) d hd]
  exact Remap_reset_get fdCount d

theorem buildFdmap_cnt (fdCount : Nat) (us : List Nat) :
    (buildFdmap fdCount us).cnt = us.length := by
  unfold buildFdmap
  have := foldl_Remap_add_cnt us (Remap.reset fdCount)
  simpa [Remap.reset] using this

/-! Exhaustive description of the planner's successful outcomes. -/

theorem plan_cases (setOk remapOk : Bool) (glyphs : List Nat) (fdCount : Nat)
    (fdOf : Nat → Nat) (first0 : List Nat) (fdmap0 : Remap) (P : Plan)
    (hplan : hb_plan_subset_cff_fdselect setOk remapOk glyphs fdCount fdOf first0 fdmap0 = some P) :
    (glyphs = [] ∧ P = ⟨0, 0, 0, first0, fdmap0⟩) ∨
    (glyphs ≠ [] ∧ setOk = true ∧ (usedFds fdOf glyphs).length = fdCount ∧
      P = ⟨(usedFds fdOf glyphs).length, 0, 0,
        first0 ++ rangeStarts fdOf glyphs 0 CFF_UNDEF_CODE, fdmap0⟩) ∨
    (glyphs ≠ [] ∧ setOk = true ∧ remapOk = true ∧ (usedFds fdOf glyphs).length ≠ fdCount ∧
      255 < (usedFds fdOf glyphs).length ∧
      P = ⟨(usedFds fdOf glyphs).length,
        FDSelect4_min_size + FDSelect4_Range_static_size * (rangeStarts fdOf glyphs 0 CFF_UNDEF_CODE).length,
        4, first0 ++ rangeStarts fdOf glyphs 0 CFF_UNDEF_CODE,
        buildFdmap fdCount (usedFds fdOf glyphs)⟩) ∨
    (glyphs ≠ [] ∧ setOk = true ∧ remapOk = true ∧ (usedFds fdOf glyphs).length ≠ fdCount ∧
      (usedFds fdOf glyphs).length ≤ 255 ∧
      FDSelect0_min_size + HBUINT8_static_size * glyphs.length ≤
        FDSelect3_min_size + FDSelect3_Range_static_size * (rangeStarts fdOf glyphs 0 CFF_UNDEF_CODE).length ∧
      P = ⟨(usedFds fdOf glyphs).length,
        FDSelect0_min_size + HBUINT8_static_size * glyphs.length, 0, [],
        buildFdmap fdCount (usedFds fdOf glyphs)⟩) ∨
    (glyphs ≠ [] ∧ setOk = true ∧ remapOk = true ∧ (usedFds fdOf glyphs).length ≠ fdCount ∧
      (usedFds fdOf glyphs).length ≤ 255 ∧
      FDSelect3_min_size + FDSelect3_Range_static_size * (rangeStarts fdOf glyphs 0 CFF_UNDEF_CODE).length <
        FDSelect0_min_size + HBUINT8_static_size * glyphs.length ∧
      P = ⟨(usedFds fdOf glyphs).length,
        FDSelect3_min_size + FDSelect3_Range_static_size * (rangeStarts fdOf glyphs 0 CFF_UNDEF_CODE).length,
        3, first0 ++ rangeStarts fdOf glyphs 0 CFF_UNDEF_CODE,
        buildFdmap fdCount (usedFds fdOf glyphs)⟩) := by
  unfold hb_plan_subset_cff_fdselect at hplan
  by_cases h0 : glyphs.length = 0
  · rw [if_pos h0] at hplan
    exact Or.inl ⟨List.length_eq_zero.mp h0, (Option.some.inj hplan).symm⟩
  · rw [if_neg h0] at hplan
    have hne : glyphs ≠ [] := by
      intro h
      exact h0 (by simp [h])
    by_cases hs : setOk = false
    · rw [if_pos hs] at hplan
      exact absurd hplan (by simp)
    · rw [if_neg hs] at hplan
      have hsT : setOk = true := by
        cases setOk
        · exact absurd rfl hs
        · rfl
      simp only [runPass_init_set, runPass_init_first, runPass_init_num] at hplan
      by_cases hid : (usedFds fdOf glyphs).length = fdCount
      · rw [if_pos hid] at hplan
        refine Or.inr (Or.inl ⟨hne, hsT, hid, (Option.some.inj hplan).symm⟩)
      · rw [if_neg hid] at hplan
        by_cases hr : remapOk = false
        · rw [if_pos hr] at hplan
          exact absurd hplan (by simp)
        · rw [if_neg hr] at hplan
          have hrT : remapOk = true := by
            cases remapOk
            · exact absurd rfl hr
            · rfl
          by_cases hbig : 255 < (usedFds fdOf glyphs).length
          · rw [if_pos hbig] at hplan
            exact Or.inr (Or.inr (Or.inl
              ⟨hne, hsT, hrT, hid, hbig, (Option.some.inj hplan).symm⟩))
          · rw [if_neg hbig] at hplan
            have hsmall : (usedFds fdOf glyphs).length ≤ 255 := by omega
            by_cases hsz : FDSelect0_min_size + HBUINT8_static_size * glyphs.length ≤
                FDSelect3_min_size + FDSelect3_Range_static_size * (rangeStarts fdOf glyphs 0 CFF_UNDEF_CODE).length
            · rw [if_pos hsz] at hplan
              exact Or.inr (Or.inr (Or.inr (Or.inl
                ⟨hne, hsT, hrT, hid, hsmall, hsz, (Option.some.inj hplan).symm⟩)))
            · rw [if_neg hsz] at hplan
              have hsz2 : FDSelect3_min_size + FDSelect3_Range_static_size * (rangeStarts fdOf glyphs 0 CFF_UNDEF_CODE).length <
                  FDSelect0_min_size + HBUINT8_static_size * glyphs.length := by omega
              exact Or.inr (Or.inr (Or.inr (Or.inr
                ⟨hne, hsT, hrT, hid, hsmall, hsz2, (Option.some.inj hplan).symm⟩)))

/-! Claim theorems. -/

/-- Claim C1: for every retained-glyph sequence whose source mapping
assigns in-range dictionary indices, the planner's subset_fd_count
output equals the number of distinct dictionary indices the mapping
assigns to the glyphs of the sequence, and this count is at most the
original dictionary count fdCount. -/
theorem c1_subset_fd_count_distinct (setOk remapOk : Bool) (glyphs : List Nat)
    (fdCount : Nat) (fdOf : Nat → Nat) (first0 : List Nat) (fdmap0 : Remap) {P : Plan}
    (hplan : hb_plan_subset_cff_fdselect setOk remapOk glyphs fdCount fdOf first0 fdmap0 = some P)
    (hfd : ∀ g, g ∈ glyphs → fdOf g < fdCount) :
    P.subset_fd_count = (glyphs.map fdOf).toFinset.card ∧ P.subset_fd_count ≤ fdCount := by
  rcases plan_cases _ _ _ _ _ _ _ _ hplan with
    ⟨hg, hP⟩ | ⟨_, _, _, hP⟩ | ⟨_, _, _, _, _, hP⟩ |
    ⟨_, _, _, _, _, _, hP⟩ | ⟨_, _, _, _, _, _, hP⟩
  · subst hg
    rw [hP]
    simp
  all_goals rw [hP]
  all_goals exact ⟨usedFds_length_eq_card fdOf glyphs,
    usedFds_length_le fdOf glyphs fdCount hfd⟩

theorem c1_witness :
    (Plan.mk 2 0 0 [0, 1] (Remap.reset 0)).subset_fd_count
        = (([5, 6].map (fun g => g % 2)).toFinset.card) ∧
      (Plan.mk 2 0 0 [0, 1] (Remap.reset 0)).subset_fd_count ≤ 2 :=
  c1_subset_fd_count_distinct true true [5, 6] 2 (fun g => g % 2) [] (Remap.reset 0)
    rfl (by decide)

/-- Claim C2 counterexample: an identity-case planning run (single glyph
whose dictionary is the only one, subset_fd_count = fdCount = 1) on
which the subst_first_glyphs output is not empty: it still holds the
range start pushed during the scan, contradicting the claim that the
identity case produces an empty subst_first_glyphs. -/
theorem c2_counterexample :
    (hb_plan_subset_cff_fdselect true true [0] 1 (fun _ => 0) [] (Remap.reset 0)).map
        Plan.subst_first_glyphs = some [0] ∧ ([0] : List Nat) ≠ [] := by
  constructor
  · rfl
  · simp

/-- Claim C2 as amended: when the planner finds subset_fd_count equal to
fdCount it reports success with size 0 and format 0 and leaves the fdmap
output untouched, but subst_first_glyphs is not cleared: it holds the
range starts pushed during the scan. -/
theorem c2_identity_amended (setOk remapOk : Bool) (glyphs : List Nat) (fdCount : Nat)
    (fdOf : Nat → Nat) (first0 : List Nat) (fdmap0 : Remap) {P : Plan}
    (hplan : hb_plan_subset_cff_fdselect setOk remapOk glyphs fdCount fdOf first0 fdmap0 = some P)
    (hid : P.subset_fd_count = fdCount) :
    P.subst_fdselect_size = 0 ∧ P.subst_fdselect_format = 0 ∧ P.fdmap = fdmap0 ∧
      P.subst_first_glyphs = first0 ++ rangeStarts fdOf glyphs 0 CFF_UNDEF_CODE := by
  rcases plan_cases _ _ _ _ _ _ _ _ hplan with
    ⟨hg, hP⟩ | ⟨_, _, _, hP⟩ | ⟨_, _, _, hni, _, hP⟩ |
    ⟨_, _, _, hni, _, _, hP⟩ | ⟨_, _, _, hni, _, _, hP⟩
  · subst hg
    rw [hP]
    simp [rangeStarts]
  · rw [hP]
    simp
  all_goals rw [hP] at hid
  all_goals exact absurd hid hni

theorem c2_witness :
    (Plan.mk 2 0 0 [0, 1] (Remap.reset 0)).subst_fdselect_size = 0 ∧
      (Plan.mk 2 0 0 [0, 1] (Remap.reset 0)).subst_fdselect_format = 0 ∧
      (Plan.mk 2 0 0 [0, 1] (Remap.reset 0)).fdmap = Remap.reset 0 ∧
      (Plan.mk 2 0 0 [0, 1] (Remap.reset 0)).subst_first_glyphs
        = [] ++ rangeStarts (fun g => g % 2) [5, 6] 0 CFF_UNDEF_CODE :=
  c2_identity_amended true true [5, 6] 2 (fun g => g % 2) [] (Remap.reset 0) rfl rfl

theorem buildFdmap_get_iff (fdCount : Nat) (us : List Nat) (d j : Nat)
    (hnd : us.Nodup) (hlt : ∀ u, u ∈ us → u < fdCount) :
    (buildFdmap fdCount us).get d = some j ↔ us.get? j = some d := by
  constructor
  · intro h
    by_cases hd : d ∈ us
    · rcases List.mem_iff_get?.mp hd with ⟨j0, hj0⟩
      have h0 := buildFdmap_get_of_get? fdCount us j0 d hnd hlt hj0
      rw [h0] at h
      have : j0 = j := by
        simpa using h
      rw [← this]
      exact hj0
    · rw [buildFdmap_get_of_not_mem fdCount us d hd] at h
      cases h
  · exact buildFdmap_get_of_get? fdCount us j d hnd hlt

/-- Claim C4: in a non-identity planning run with subset_fd_count at most
255, the planner chooses the per-glyph layout (format 0) iff its computed
size is at most the range layout's computed size (so equal sizes choose
format 0), and whenever format 0 wins the range list subst_first_glyphs
is discarded (left empty). -/
theorem c4_format0_choice (setOk remapOk : Bool) (glyphs : List Nat) (fdCount : Nat)
    (fdOf : Nat → Nat) (first0 : List Nat) (fdmap0 : Remap) {P : Plan}
    (hplan : hb_plan_subset_cff_fdselect setOk remapOk glyphs fdCount fdOf first0 fdmap0 = some P)
    (hne : glyphs ≠ []) (hni : P.subset_fd_count ≠ fdCount)
    (hle : P.subset_fd_count ≤ 255) :
    (P.subst_fdselect_format = 0 ↔
      FDSelect0_min_size + HBUINT8_static_size * glyphs.length ≤
        FDSelect3_min_size + FDSelect3_Range_static_size
          * (rangeStarts fdOf glyphs 0 CFF_UNDEF_CODE).length) ∧
    (P.subst_fdselect_format = 0 → P.subst_first_glyphs = []) := by
  rcases plan_cases _ _ _ _ _ _ _ _ hplan with
    ⟨hg, hP⟩ | ⟨_, _, hid, hP⟩ | ⟨_, _, _, _, hbig, hP⟩ |
    ⟨_, _, _, _, _, hsz, hP⟩ | ⟨_, _, _, _, _, hsz, hP⟩
  · exact absurd hg hne
  · subst hP
    exact absurd hid (by simpa using hni)
  · subst hP
    simp at hle
    omega
  · subst hP
    exact ⟨⟨fun _ => hsz, fun _ => rfl⟩, fun _ => rfl⟩
  · subst hP
    refine ⟨⟨?_, ?_⟩, ?_⟩
    · intro h
      simp at h
    · intro h
      omega
    · intro h
      simp at h

theorem c4_witness :
    ((Plan.mk 2 3 0 [] (Remap.mk [some 0, some 1, none] 2)).subst_fdselect_format = 0 ↔
      FDSelect0_min_size + HBUINT8_static_size * ([5, 6] : List Nat).length ≤
        FDSelect3_min_size + FDSelect3_Range_static_size
          * (rangeStarts (fun g => g % 2) [5, 6] 0 CFF_UNDEF_CODE).length) ∧
    ((Plan.mk 2 3 0 [] (Remap.mk [some 0, some 1, none] 2)).subst_fdselect_format = 0 →
      (Plan.mk 2 3 0 [] (Remap.mk [some 0, some 1, none] 2)).subst_first_glyphs = []) :=
  c4_format0_choice true true [5, 6] 3 (fun g => g % 2) [] (Remap.reset 0)
    rfl (by decide) (by decide) (by decide)

/-- Claim C5: in a non-identity planning run with subset_fd_count greater
than 255, the planner always chooses the wide-range layout (format 4),
regardless of the candidate sizes, and its planned size is the wide
header size plus the range count times the wide-range record size. -/
theorem c5_format4_forced (setOk remapOk : Bool) (glyphs : List Nat) (fdCount : Nat)
    (fdOf : Nat → Nat) (first0 : List Nat) (fdmap0 : Remap) {P : Plan}
    (hplan : hb_plan_subset_cff_fdselect setOk remapOk glyphs fdCount fdOf first0 fdmap0 = some P)
    (hne : glyphs ≠ []) (hni : P.subset_fd_count ≠ fdCount)
    (hbig : 255 < P.subset_fd_count) :
    P.subst_fdselect_format = 4 ∧
      P.subst_fdselect_size = FDSelect4_min_size + FDSelect4_Range_static_size
        * (rangeStarts fdOf glyphs 0 CFF_UNDEF_CODE).length := by
  rcases plan_cases _ _ _ _ _ _ _ _ hplan with
    ⟨hg, hP⟩ | ⟨_, _, hid, hP⟩ | ⟨_, _, _, _, _, hP⟩ |
    ⟨_, _, _, _, hsmall, _, hP⟩ | ⟨_, _, _, _, hsmall, _, hP⟩
  · exact absurd hg hne
  · subst hP
    exact absurd hid (by simpa using hni)
  · subst hP
    exact ⟨rfl, rfl⟩
  · subst hP
    simp at hbig
    omega
  · subst hP
    simp at hbig
    omega

set_option maxRecDepth 100000 in
theorem c5_witness :
    ∃ P : Plan,
      hb_plan_subset_cff_fdselect true true (List.range 256) 257 (fun g => 255 - g)
          [] (Remap.reset 0) = some P ∧
      P.subst_fdselect_format = 4 ∧
      P.subst_fdselect_size = FDSelect4_min_size + FDSelect4_Range_static_size
        * (rangeStarts (fun g => 255 - g) (List.range 256) 0 CFF_UNDEF_CODE).length :=
  ⟨_, rfl, c5_format4_forced true true (List.range 256) 257 (fun g => 255 - g)
    [] (Remap.reset 0) rfl (by decide) (by decide) (by decide)⟩

/-- Claim C10: after the planner's scan, the internal num_ranges counter
equals the number of entries pushed into subst_first_glyphs, and hence
for a range-format plan (for which the serializer writes nRanges =
subst_first_glyphs.len) the planned table size decomposes as header plus
record size times the length of the first-glyphs list. -/
theorem c10_num_ranges_invariant (setOk remapOk : Bool) (glyphs : List Nat)
    (fdCount : Nat) (fdOf : Nat → Nat) (fdmap0 : Remap) {P : Plan}
    (hplan : hb_plan_subset_cff_fdselect setOk remapOk glyphs fdCount fdOf [] fdmap0 = some P) :
    (runPass fdOf glyphs 0 ⟨[], CFF_UNDEF_CODE, 0, []⟩).num_ranges
        = (runPass fdOf glyphs 0 ⟨[], CFF_UNDEF_CODE, 0, []⟩).first_glyphs.length ∧
    (P.subst_fdselect_format = 3 →
      P.subst_fdselect_size = FDSelect3_min_size
        + FDSelect3_Range_static_size * P.subst_first_glyphs.length) ∧
    (P.subst_fdselect_format = 4 →
      P.subst_fdselect_size = FDSelect4_min_size
        + FDSelect4_Range_static_size * P.subst_first_glyphs.length) := by
  have hinv : (runPass fdOf glyphs 0 ⟨[], CFF_UNDEF_CODE, 0, []⟩).num_ranges
      = (runPass fdOf glyphs 0 ⟨[], CFF_UNDEF_CODE, 0, []⟩).first_glyphs.length := by
    rw [runPass_init_num, runPass_init_first]
    simp
  refine ⟨hinv, ?_, ?_⟩
  · rcases plan_cases _ _ _ _ _ _ _ _ hplan with
      ⟨hg, hP⟩ | ⟨_, _, _, hP⟩ | ⟨_, _, _, _, _, hP⟩ |
      ⟨_, _, _, _, _, _, hP⟩ | ⟨_, _, _, _, _, _, hP⟩
    all_goals subst hP
    all_goals intro hfmt
    · simp at hfmt
    · simp at hfmt
    · simp at hfmt
    · simp at hfmt
    · simp
  · rcases plan_cases _ _ _ _ _ _ _ _ hplan with
      ⟨hg, hP⟩ | ⟨_, _, _, hP⟩ | ⟨_, _, _, _, _, hP⟩ |
      ⟨_, _, _, _, _, _, hP⟩ | ⟨_, _, _, _, _, _, hP⟩
    all_goals subst hP
    all_goals intro hfmt
    · simp at hfmt
    · simp at hfmt
    · simp
    · simp at hfmt
    · simp at hfmt

theorem buildFdmap_props (fdCount : Nat) (us : List Nat)
    (hpw : us.Pairwise (· < ·)) (hlt : ∀ u, u ∈ us → u < fdCount) :
    (∀ d, (∃ j, (buildFdmap fdCount us).get d = some j) ↔ d ∈ us) ∧
    (∀ d j, (buildFdmap fdCount us).get d = some j → j < us.length) ∧
    (∀ j, j < us.length → ∃ d, d ∈ us ∧ (buildFdmap fdCount us).get d = some j) ∧
    (∀ d d2 j j2, (buildFdmap fdCount us).get d = some j →
      (buildFdmap fdCount us).get d2 = some j2 → (d < d2 ↔ j < j2)) := by
  have hnd : us.Nodup := hpw.imp Nat.ne_of_lt
  have hiff : ∀ d j, ((buildFdmap fdCount us).get d = some j ↔ us.get? j = some d) :=
    fun d j => buildFdmap_get_iff fdCount us d j hnd hlt
  refine ⟨?_, ?_, ?_, ?_⟩
  · intro d
    constructor
    · rintro ⟨j, hj⟩
      rw [hiff] at hj
      exact List.mem_iff_get?.mpr ⟨j, hj⟩
    · intro hd
      rcases List.mem_iff_get?.mp hd with ⟨j, hj⟩
      exact ⟨j, (hiff d j).mpr hj⟩
  · intro d j hj
    rw [hiff] at hj
    by_contra hge
    rw [List.get?_eq_none.mpr (by omega)] at hj
    cases hj
  · intro j hjlt
    exact ⟨us.get ⟨j, hjlt⟩, List.get_mem us j hjlt,
      (hiff _ j).mpr (List.get?_eq_get hjlt)⟩
  · intro d d2 j j2 h1 h2
    rw [hiff] at h1 h2
    have hj : j < us.length := by
      by_contra hge
      rw [List.get?_eq_none.mpr (by omega)] at h1
      cases h1
    have hj2 : j2 < us.length := by
      by_contra hge
      rw [List.get?_eq_none.mpr (by omega)] at h2
      cases h2
    have hd : us.get ⟨j, hj⟩ = d := by
      have h3 := List.get?_eq_get hj
      rw [h3] at h1
      simpa using h1
    have hd2 : us.get ⟨j2, hj2⟩ = d2 := by
      have h3 := List.get?_eq_get hj2
      rw [h3] at h2
      simpa using h2
    have hmono := List.pairwise_iff_get.mp hpw
    constructor
    · intro hdd
      by_contra hge
      rcases Nat.lt_or_ge j2 j with hlt2 | hge2
      · have h4 := hmono ⟨j2, hj2⟩ ⟨j, hj⟩ hlt2
        rw [hd, hd2] at h4
        omega
      · have hjj : j = j2 := by omega
        subst hjj
        have : d = d2 := hd.symm.trans hd2
        omega
    · intro hjj
      have h4 := hmono ⟨j, hj⟩ ⟨j2, hj2⟩ hjj
      rw [hd, hd2] at h4
      exact h4

/-- Claim C6: in a successful non-identity planning run with an in-range
source mapping, the fdmap output is a strictly ascending-order-preserving
bijection from the set of distinct dictionary indices used by the
retained glyphs onto the interval from 0 up to subset_fd_count. -/
theorem c6_fdmap_bijection (setOk remapOk : Bool) (glyphs : List Nat) (fdCount : Nat)
    (fdOf : Nat → Nat) (first0 : List Nat) (fdmap0 : Remap) {P : Plan}
    (hplan : hb_plan_subset_cff_fdselect setOk remapOk glyphs fdCount fdOf first0 fdmap0 = some P)
    (hfd : ∀ g, g ∈ glyphs → fdOf g < fdCount)
    (hne : glyphs ≠ []) (hni : P.subset_fd_count ≠ fdCount) :
    (∀ d, (∃ j, P.fdmap.get d = some j) ↔ d ∈ glyphs.map fdOf) ∧
    (∀ d j, P.fdmap.get d = some j → j < P.subset_fd_count) ∧
    (∀ j, j < P.subset_fd_count → ∃ d, d ∈ glyphs.map fdOf ∧ P.fdmap.get d = some j) ∧
    (∀ d d2 j j2, P.fdmap.get d = some j → P.fdmap.get d2 = some j2 →
      (d < d2 ↔ j < j2)) := by
  have hlt : ∀ u, u ∈ usedFds fdOf glyphs → u < fdCount := by
    intro u hu
    rcases (usedFds_mem fdOf glyphs u).mp hu with ⟨g, hg2, hfd2⟩
    rw [← hfd2]
    exact hfd g hg2
  have hprops := buildFdmap_props fdCount (usedFds fdOf glyphs)
    (usedFds_pairwise fdOf glyphs) hlt
  have hmemiff : ∀ d, (d ∈ usedFds fdOf glyphs ↔ d ∈ glyphs.map fdOf) := by
    intro d
    simp [usedFds_mem, List.mem_map]
  rcases plan_cases _ _ _ _ _ _ _ _ hplan with
    ⟨hg, hP⟩ | ⟨_, _, hid, hP⟩ | ⟨_, _, _, _, _, hP⟩ |
    ⟨_, _, _, _, _, _, hP⟩ | ⟨_, _, _, _, _, _, hP⟩
  · exact absurd hg hne
  · subst hP
    exact absurd hid (by simpa using hni)
  all_goals subst hP
  all_goals refine ⟨?_, ?_, ?_, ?_⟩
  all_goals try (intro d; rw [← hmemiff d]; exact hprops.1 d)
  all_goals try exact hprops.2.1
  all_goals try exact hprops.2.2.2
  all_goals intro j hj
  all_goals rcases hprops.2.2.1 j hj with ⟨d, hd, hget⟩
  all_goals exact ⟨d, (hmemiff d).mp hd, hget⟩

theorem c6_witness :
    (∀ d, (∃ j, (Plan.mk 2 3 0 [] (Remap.mk [some 0, some 1, none] 2)).fdmap.get d = some j)
        ↔ d ∈ [5, 6].map (fun g => g % 2)) ∧
    (∀ d j, (Plan.mk 2 3 0 [] (Remap.mk [some 0, some 1, none] 2)).fdmap.get d = some j →
      j < (Plan.mk 2 3 0 [] (Remap.mk [some 0, some 1, none] 2)).subset_fd_count) ∧
    (∀ j, j < (Plan.mk 2 3 0 [] (Remap.mk [some 0, some 1, none] 2)).subset_fd_count →
      ∃ d, d ∈ [5, 6].map (fun g => g % 2) ∧
        (Plan.mk 2 3 0 [] (Remap.mk [some 0, some 1, none] 2)).fdmap.get d = some j) ∧
    (∀ d d2 j j2, (Plan.mk 2 3 0 [] (Remap.mk [some 0, some 1, none] 2)).fdmap.get d = some j →
      (Plan.mk 2 3 0 [] (Remap.mk [some 0, some 1, none] 2)).fdmap.get d2 = some j2 →
      (d < d2 ↔ j < j2)) :=
  c6_fdmap_bijection true true [5, 6] 3 (fun g => g % 2) [] (Remap.reset 0)
    rfl (by decide) (by decide) (by decide)

/-! Success-case evaluations of the serializer, one per format. -/

theorem serialize_fmt0 (cap : Nat) (glyphs : List Nat) (fdOf : Nat → Nat)
    (fd_count size : Nat) (first : List Nat) (fdmap : Remap)
    (hsz : size ≠ 0) (hcap : size ≤ cap) :
    hb_serialize_cff_fdselect cap glyphs fdOf fd_count 0 size first fdmap
      = some ((0 % 256) :: glyphs.map (fun g => Remap.idx fdmap (fdOf g) % 256)) := by
  have h1 : ¬(cap < FDSelect_min_size) := by
    unfold FDSelect_min_size
    omega
  have h2 : ¬(cap - FDSelect_min_size < u32sub1 size) := by
    rw [u32sub1_of_ne_zero size hsz]
    unfold FDSelect_min_size
    omega
  unfold hb_serialize_cff_fdselect
  rw [if_neg h1, if_neg h2]
  simp

theorem serialize_fmt3 (cap : Nat) (glyphs : List Nat) (fdOf : Nat → Nat)
    (fd_count size : Nat) (first : List Nat) (fdmap : Remap)
    (hsz : size ≠ 0) (hcap : size ≤ cap) :
    hb_serialize_cff_fdselect cap glyphs fdOf fd_count 3 size first fdmap
      = some ((3 % 256) :: (beBytes 2 first.length ++ rangeBytes 2 1 fdOf fdmap first
          ++ beBytes 2 glyphs.length)) := by
  have h1 : ¬(cap < FDSelect_min_size) := by
    unfold FDSelect_min_size
    omega
  have h2 : ¬(cap - FDSelect_min_size < u32sub1 size) := by
    rw [u32sub1_of_ne_zero size hsz]
    unfold FDSelect_min_size
    omega
  unfold hb_serialize_cff_fdselect serialize_fdselect_3_4
  rw [if_neg h1, if_neg h2]
  simp
  rw [if_neg h2]

theorem serialize_fmt4 (cap : Nat) (glyphs : List Nat) (fdOf : Nat → Nat)
    (fd_count size : Nat) (first : List Nat) (fdmap : Remap)
    (hsz : size ≠ 0) (hcap : size ≤ cap) :
    hb_serialize_cff_fdselect cap glyphs fdOf fd_count 4 size first fdmap
      = some ((4 % 256) :: (beBytes 4 first.length ++ rangeBytes 4 2 fdOf fdmap first
          ++ beBytes 4 glyphs.length)) := by
  have h1 : ¬(cap < FDSelect_min_size) := by
    unfold FDSelect_min_size
    omega
  have h2 : ¬(cap - FDSelect_min_size < u32sub1 size) := by
    rw [u32sub1_of_ne_zero size hsz]
    unfold FDSelect_min_size
    omega
  unfold hb_serialize_cff_fdselect serialize_fdselect_3_4
  rw [if_neg h1, if_neg h2]
  simp
  rw [if_neg h2]

/-- Claim C3: for every successful non-identity planning run, calling the
serializer with the plan's outputs and a sufficient output region
succeeds and writes exactly subst_fdselect_size bytes (format tag plus
per-glyph bytes, or format tag plus range count plus range records plus
sentinel). -/
theorem c3_serialized_size_matches_plan (setOk remapOk : Bool) (glyphs : List Nat)
    (fdCount : Nat) (fdOf : Nat → Nat) (fdmap0 : Remap) (cap : Nat) {P : Plan}
    (hplan : hb_plan_subset_cff_fdselect setOk remapOk glyphs fdCount fdOf [] fdmap0 = some P)
    (hne : glyphs ≠ []) (hni : P.subset_fd_count ≠ fdCount)
    (hcap : P.subst_fdselect_size ≤ cap) :
    ∃ bytes, hb_serialize_cff_fdselect cap glyphs fdOf fdCount
        P.subst_fdselect_format P.subst_fdselect_size P.subst_first_glyphs P.fdmap
      = some bytes ∧ bytes.length = P.subst_fdselect_size := by
  rcases plan_cases _ _ _ _ _ _ _ _ hplan with
    ⟨hg, hP⟩ | ⟨_, _, hid, hP⟩ | ⟨_, _, _, _, _, hP⟩ |
    ⟨_, _, _, _, _, _, hP⟩ | ⟨_, _, _, _, _, _, hP⟩
  · exact absurd hg hne
  · subst hP
    exact absurd hid (by simpa using hni)
  · subst hP
    have hsz : FDSelect4_min_size + FDSelect4_Range_static_size
        * (rangeStarts fdOf glyphs 0 CFF_UNDEF_CODE).length ≠ 0 := by
      unfold FDSelect4_min_size
      omega
    refine ⟨_, serialize_fmt4 cap glyphs fdOf fdCount _ _ _ hsz hcap, ?_⟩
    simp [beBytes_length, rangeBytes_length, FDSelect4_min_size, FDSelect4_Range_static_size]
    omega
  · subst hP
    have hsz : FDSelect0_min_size + HBUINT8_static_size * glyphs.length ≠ 0 := by
      unfold FDSelect0_min_size
      omega
    refine ⟨_, serialize_fmt0 cap glyphs fdOf fdCount _ _ _ hsz hcap, ?_⟩
    simp [FDSelect0_min_size, HBUINT8_static_size]
    omega
  · subst hP
    have hsz : FDSelect3_min_size + FDSelect3_Range_static_size
        * (rangeStarts fdOf glyphs 0 CFF_UNDEF_CODE).length ≠ 0 := by
      unfold FDSelect3_min_size
      omega
    refine ⟨_, serialize_fmt3 cap glyphs fdOf fdCount _ _ _ hsz hcap, ?_⟩
    simp [beBytes_length, rangeBytes_length, FDSelect3_min_size, FDSelect3_Range_static_size]
    omega

theorem c3_witness :
    ∃ bytes, hb_serialize_cff_fdselect 10 [5, 6] (fun g => g % 2) 3
        (Plan.mk 2 3 0 [] (Remap.mk [some 0, some 1, none] 2)).subst_fdselect_format
        (Plan.mk 2 3 0 [] (Remap.mk [some 0, some 1, none] 2)).subst_fdselect_size
        (Plan.mk 2 3 0 [] (Remap.mk [some 0, some 1, none] 2)).subst_first_glyphs
        (Plan.mk 2 3 0 [] (Remap.mk [some 0, some 1, none] 2)).fdmap
      = some bytes ∧
      bytes.length = (Plan.mk 2 3 0 [] (Remap.mk [some 0, some 1, none] 2)).subst_fdselect_size :=
  c3_serialized_size_matches_plan true true [5, 6] 3 (fun g => g % 2) (Remap.reset 0) 10
    rfl (by decide) (by decide) (by decide)

theorem list_getD_mem : ∀ (l : List Nat) (k d : Nat), k < l.length → l.getD k d ∈ l := by
  intro l
  induction l with
  | nil => intro k d h; simp at h
  | cons x xs ih =>
    intro k d h
    cases k with
    | zero => simp
    | succ m =>
      have hm : m < xs.length := by simpa using h
      simpa using Or.inr (ih m d hm)

/-- Claim C7: the planner's scan records a range start at new glyph index
0 and at exactly those positions where the dictionary index assigned by
the source mapping differs from the previous retained glyph's, and
nowhere else; the range counter equals the number of such positions.
The hypothesis states that the mapping never returns the sentinel value
used to initialise prev_fd, which holds for every real FDSelect. -/
theorem c7_range_boundaries (glyphs : List Nat) (fdOf : Nat → Nat)
    (hfd : ∀ g, g ∈ glyphs → fdOf g ≠ CFF_UNDEF_CODE) :
    (∀ j, j ∈ (runPass fdOf glyphs 0 ⟨[], CFF_UNDEF_CODE, 0, []⟩).first_glyphs ↔
      (j < glyphs.length ∧
        (j = 0 ∨ fdOf (glyphs.getD j 0) ≠ fdOf (glyphs.getD (j - 1) 0)))) ∧
    (runPass fdOf glyphs 0 ⟨[], CFF_UNDEF_CODE, 0, []⟩).num_ranges =
      ((List.range glyphs.length).filter
        (fun j => decide (j = 0 ∨ fdOf (glyphs.getD j 0) ≠ fdOf (glyphs.getD (j - 1) 0)))).length := by
  have hmem : ∀ j, (j ∈ rangeStarts fdOf glyphs 0 CFF_UNDEF_CODE ↔
      (j < glyphs.length ∧
        (j = 0 ∨ fdOf (glyphs.getD j 0) ≠ fdOf (glyphs.getD (j - 1) 0)))) := by
    intro j
    rw [rangeStarts_mem]
    constructor
    · rintro ⟨k, hk, hj, hcond⟩
      have hkj : k = j := by omega
      subst hkj
      refine ⟨hk, ?_⟩
      by_cases h0 : k = 0
      · exact Or.inl h0
      · rw [if_neg h0] at hcond
        exact Or.inr hcond
    · rintro ⟨hj, hcase⟩
      refine ⟨j, hj, by omega, ?_⟩
      by_cases h0 : j = 0
      · rw [if_pos h0]
        exact hfd (glyphs.getD j 0) (list_getD_mem glyphs j 0 hj)
      · rw [if_neg h0]
        rcases hcase with h | h
        · exact absurd h h0
        · exact h
  constructor
  · intro j
    rw [runPass_init_first]
    simpa using hmem j
  · rw [runPass_init_num]
    apply List.Perm.length_eq
    rw [List.perm_ext_iff_of_nodup (rangeStarts_nodup fdOf glyphs 0 CFF_UNDEF_CODE)
      ((List.nodup_range glyphs.length).filter _)]
    intro a
    rw [hmem a, List.mem_filter, List.mem_range]
    constructor
    · rintro ⟨h1, h2⟩
      exact ⟨h1, by simpa using h2⟩
    · rintro ⟨h1, h2⟩
      exact ⟨h1, by simpa using h2⟩

theorem c7_witness :
    (∀ j, j ∈ (runPass (fun g => g % 2) [5, 6] 0 ⟨[], CFF_UNDEF_CODE, 0, []⟩).first_glyphs ↔
      (j < ([5, 6] : List Nat).length ∧
        (j = 0 ∨ (fun g => g % 2) (([5, 6] : List Nat).getD j 0)
          ≠ (fun g => g % 2) (([5, 6] : List Nat).getD (j - 1) 0)))) ∧
    (runPass (fun g => g % 2) [5, 6] 0 ⟨[], CFF_UNDEF_CODE, 0, []⟩).num_ranges =
      ((List.range ([5, 6] : List Nat).length).filter
        (fun j => decide (j = 0 ∨ (fun g => g % 2) (([5, 6] : List Nat).getD j 0)
          ≠ (fun g => g % 2) (([5, 6] : List Nat).getD (j - 1) 0)))).length :=
  c7_range_boundaries [5, 6] (fun g => g % 2) (by decide)

/-- Claim C9: the planner returns false exactly when one of its two
bookkeeping allocations (the hb_set, or the remap array when a remap is
needed) fails, and the serializer returns false exactly when allocation
from its output region fails (the header byte, or the body of a
recognised format); every other input yields success, and the boolean
result is the only error channel. -/
theorem c9_error_results :
    (∀ (setOk remapOk : Bool) (glyphs : List Nat) (fdCount : Nat) (fdOf : Nat → Nat)
        (first0 : List Nat) (fdmap0 : Remap),
      (hb_plan_subset_cff_fdselect setOk remapOk glyphs fdCount fdOf first0 fdmap0 = none ↔
        glyphs ≠ [] ∧ (setOk = false ∨
          ((usedFds fdOf glyphs).length ≠ fdCount ∧ remapOk = false)))) ∧
    (∀ (cap : Nat) (glyphs : List Nat) (fdOf : Nat → Nat) (fd_count fmt size : Nat)
        (first : List Nat) (fdmap : Remap),
      (hb_serialize_cff_fdselect cap glyphs fdOf fd_count fmt size first fdmap = none ↔
        cap < FDSelect_min_size ∨
          ((fmt = 0 ∨ fmt = 3 ∨ fmt = 4) ∧ cap - FDSelect_min_size < u32sub1 size))) := by
  constructor
  · intro setOk remapOk glyphs fdCount fdOf first0 fdmap0
    unfold hb_plan_subset_cff_fdselect
    by_cases h0 : glyphs.length = 0
    · rw [if_pos h0]
      simp [List.length_eq_zero.mp h0]
    · rw [if_neg h0]
      have hne : glyphs ≠ [] := by
        intro h
        exact h0 (by simp [h])
      by_cases hs : setOk = false
      · rw [if_pos hs]
        simp [hne, hs]
      · rw [if_neg hs]
        simp only [runPass_init_set]
        by_cases hid : (usedFds fdOf glyphs).length = fdCount
        · rw [if_pos hid]
          simp [hs, hid]
        · rw [if_neg hid]
          by_cases hr : remapOk = false
          · rw [if_pos hr]
            simp [hne, hs, hid, hr]
          · rw [if_neg hr]
            by_cases hbig : 255 < (usedFds fdOf glyphs).length
            · rw [if_pos hbig]
              simp [hs, hr]
            · rw [if_neg hbig]
              split
              · simp [hs, hr]
              · simp [hs, hr]
  · intro cap glyphs fdOf fd_count fmt size first fdmap
    unfold hb_serialize_cff_fdselect serialize_fdselect_3_4
    by_cases h1 : cap < FDSelect_min_size
    · rw [if_pos h1]
      simp [h1]
    · rw [if_neg h1]
      by_cases hf0 : fmt = 0
      · rw [if_pos hf0]
        by_cases h2 : cap - FDSelect_min_size < u32sub1 size
        · rw [if_pos h2]
          simp [h1, hf0, h2]
        · rw [if_neg h2]
          simp [h1, hf0, h2]
      · rw [if_neg hf0]
        by_cases hf3 : fmt = 3
        · rw [if_pos hf3]
          by_cases h2 : cap - FDSelect_min_size < u32sub1 size
          · rw [if_pos h2]
            simp [h1, hf3, h2]
          · rw [if_neg h2]
            simp [h1, hf0, hf3, h2]
        · rw [if_neg hf3]
          by_cases hf4 : fmt = 4
          · rw [if_pos hf4]
            by_cases h2 : cap - FDSelect_min_size < u32sub1 size
            · rw [if_pos h2]
              simp [h1, hf4, h2]
            · rw [if_neg h2]
              simp [h1, hf0, hf3, hf4, h2]
          · rw [if_neg hf4]
            simp [h1, hf0, hf3, hf4]

/-- Claim C8 fails on the code: planning the 20-glyph sequence of
original gids 100..119 over a mapping that sends gids below 110 to
dictionary 0 and the rest to dictionary 1 (original count 3) selects
format 3 with range starts [0, 10] and remap 0 to 0, 1 to 1.  The
serializer computes each range's fd as fdmap[src.get_fd (glyph)] where
glyph is the NEW glyph index taken from first_glyphs, instead of the
original gid glyphs[glyph]; here src.get_fd 10 = 0 although
src.get_fd (glyphs[10]) = src.get_fd 110 = 1, so decoding the output at
glyph position 10 yields compacted index 0 while the remap assigns that
glyph's dictionary the compacted index 1. -/
theorem c8_range_fd_bug :
    hb_plan_subset_cff_fdselect true true ((List.range 20).map (fun k => 100 + k)) 3
        (fun g => if g < 110 then 0 else 1) [] (Remap.reset 0)
      = some (Plan.mk 2 11 3 [0, 10] (Remap.mk [some 0, some 1, none] 2)) ∧
    hb_serialize_cff_fdselect 100 ((List.range 20).map (fun k => 100 + k))
        (fun g => if g < 110 then 0 else 1) 3 3 11 [0, 10]
        (Remap.mk [some 0, some 1, none] 2)
      = some [3, 0, 2, 0, 0, 0, 0, 10, 0, 0, 20] ∧
    decode_fdselect 20 [3, 0, 2, 0, 0, 0, 0, 10, 0, 0, 20] 10 = some 0 ∧
    Remap.idx (Remap.mk [some 0, some 1, none] 2)
      ((fun g => if g < 110 then 0 else 1)
        ((((List.range 20).map (fun k => 100 + k)) : List Nat).getD 10 0)) = 1 ∧
    (0 : Nat) ≠ 1 := by
  refine ⟨rfl, rfl, rfl, rfl, by decide⟩

theorem c10_witness :
    (runPass (fun g => if g < 110 then 0 else 1) ((List.range 20).map (fun k => 100 + k)) 0
        ⟨[], CFF_UNDEF_CODE, 0, []⟩).num_ranges
      = (runPass (fun g => if g < 110 then 0 else 1) ((List.range 20).map (fun k => 100 + k)) 0
        ⟨[], CFF_UNDEF_CODE, 0, []⟩).first_glyphs.length ∧
    ((Plan.mk 2 11 3 [0, 10] (Remap.mk [some 0, some 1, none] 2)).subst_fdselect_format = 3 →
      (Plan.mk 2 11 3 [0, 10] (Remap.mk [some 0, some 1, none] 2)).subst_fdselect_size
        = FDSelect3_min_size + FDSelect3_Range_static_size
          * (Plan.mk 2 11 3 [0, 10] (Remap.mk [some 0, some 1, none] 2)).subst_first_glyphs.length) ∧
    ((Plan.mk 2 11 3 [0, 10] (Remap.mk [some 0, some 1, none] 2)).subst_fdselect_format = 4 →
      (Plan.mk 2 11 3 [0, 10] (Remap.mk [some 0, some 1, none] 2)).subst_fdselect_size
        = FDSelect4_min_size + FDSelect4_Range_static_size
          * (Plan.mk 2 11 3 [0, 10] (Remap.mk [some 0, some 1, none] 2)).subst_first_glyphs.length) :=
  c10_num_ranges_invariant true true ((List.range 20).map (fun k => 100 + k)) 3
    (fun g => if g < 110 then 0 else 1) (Remap.reset 0) rfl
